import Mathlib

/-!
Shallow embedding of `src/csv/csv_stringify_stream.ts` (module `csv_stringify_stream`).

The source defines `CsvStringifyStream`, a `TransformStream` whose constructor
destructures `const { separator, columns = [], crlf = true } = options ?? {}` and
installs two callbacks:

* `start(controller)`: if `columns && columns.length > 0`, it enqueues
  `stringify([columns], { separator, headers: false, crlf })`, catching any thrown
  error and forwarding it with `controller.error(error)`;
* `transform(chunk, controller)`: it enqueues
  `stringify([chunk], { separator, headers: false, columns, crlf })`, catching any
  thrown error and forwarding it with `controller.error(error)`.

The record encoder `stringify` (imported from `./stringify.ts`) is an external
collaborator that is not part of this module; we model it as an abstract function
from a batch of rows and an options record to `Except ε String` (a thrown encoding
error or the returned text).  Input chunks have an abstract type `α`; since in
JavaScript the `columns` array itself is passed as a row to `stringify`, the model
takes an injection `inj : List String → α` of string arrays into the row universe.

Each callback is embedded as the list of observable steps it performs, in order:
encoder invocations (`Step.callEnc`), `controller.enqueue` (`Step.enqueue`) and
`controller.error` (`Step.error`).  Per the WHATWG streams semantics that
`TransformStream` relies on, once `controller.error` is called the stream is in a
terminal errored state: no later callback runs and no later chunk is delivered.
`consume` realises exactly that: it folds a step trace into the delivered encoder
calls, the delivered chunk sequence and the terminal error, discarding everything
after the first `Step.error`.  `CsvStringifyStream.run` composes the `start`
callback with the `transform` callback applied to each input item in order, which
is the whole lifetime of one transform instance.
-/

namespace CsvStream

/-- The `CsvStringifyStreamOptions` interface: all three fields are optional
(`none` models an absent / `undefined` field). -/
structure CsvStringifyStreamOptions where
  separator : Option String
  columns : Option (List String)
  crlf : Option Bool
deriving DecidableEq

/-- The configuration captured by the constructor after destructuring. -/
structure Config where
  separator : Option String
  columns : List String
  crlf : Bool
deriving DecidableEq

/-- `const { separator, columns = [], crlf = true } = options ?? {}`:
an absent options object means `{}`; `columns` defaults to `[]` and `crlf` to
`true` when absent; `separator` stays possibly-`undefined`. -/
def mkConfig (options : Option CsvStringifyStreamOptions) : Config :=
  let o := options.getD ⟨none, none, none⟩
  ⟨o.separator, o.columns.getD [], o.crlf.getD true⟩

/-- The options record passed to the external `stringify` collaborator.
`columns = none` models an options object with no `columns` property at all
(the header call), while `columns = some cs` models `columns: cs` (the per-item
call, where `cs` may be empty). -/
structure StringifyOptions where
  separator : Option String
  headers : Bool
  columns : Option (List String)
  crlf : Bool
deriving DecidableEq

/-- The abstract record encoder collaborator (`stringify` from `./stringify.ts`):
given a batch of rows and options it returns the encoded text or throws an
encoding error of type `ε`. -/
def Encoder (α ε : Type) : Type :=
  List α → StringifyOptions → Except ε String

/-- One invocation of the record encoder: the row batch and options it received. -/
structure EncCall (α : Type) where
  rows : List α
  opts : StringifyOptions
deriving DecidableEq

/-- An observable step performed by a stream callback, in program order. -/
inductive Step (α ε : Type) where
  /-- an invocation of the `stringify` collaborator -/
  | callEnc (rows : List α) (opts : StringifyOptions)
  /-- `controller.enqueue(s)` -/
  | enqueue (s : String)
  /-- `controller.error(e)` -/
  | error (e : ε)
deriving DecidableEq

/-- The outcome of running one transform instance: the encoder calls that were
actually performed, the chunk sequence delivered downstream, and the terminal
error (if the stream errored). -/
structure RunResult (α ε : Type) where
  calls : List (EncCall α)
  chunks : List String
  error : Option ε
deriving DecidableEq

/-- Stream semantics of a step trace: steps take effect in order until the first
`controller.error`, which puts the stream in a terminal errored state (steps after
it never happen, and no further chunk is delivered). -/
def consume {α ε : Type} : List (Step α ε) → RunResult α ε
  | [] => ⟨[], [], none⟩
  | Step.callEnc r o :: rest =>
      let t := consume rest
      ⟨⟨r, o⟩ :: t.calls, t.chunks, t.error⟩
  | Step.enqueue s :: rest =>
      let t := consume rest
      ⟨t.calls, s :: t.chunks, t.error⟩
  | Step.error e :: _ => ⟨[], [], some e⟩

/-- The options literal `{ separator, headers: false, crlf }` of the header call
in `start` (note: no `columns` property). -/
def headerOptions (cfg : Config) : StringifyOptions :=
  ⟨cfg.separator, false, none, cfg.crlf⟩

/-- The options literal `{ separator, headers: false, columns, crlf }` of the
per-item call in `transform` (`columns` is present even when it is empty). -/
def itemOptions (cfg : Config) : StringifyOptions :=
  ⟨cfg.separator, false, some cfg.columns, cfg.crlf⟩

/-- `try { controller.enqueue(<result>) } catch (error) { controller.error(error) }`. -/
def eventOf {α ε : Type} : Except ε String → Step α ε
  | Except.ok s => Step.enqueue s
  | Except.error e => Step.error e

/-- The `start(controller)` callback body: if `columns && columns.length > 0`,
call `stringify([columns], { separator, headers: false, crlf })` and enqueue the
result (or forward the thrown error); otherwise do nothing.  (`columns` is always
an array after destructuring, so the truthiness guard reduces to the length
test.) -/
def startSteps {α ε : Type} (enc : Encoder α ε) (inj : List String → α)
    (cfg : Config) : List (Step α ε) :=
  if cfg.columns.length > 0 then
    [Step.callEnc [inj cfg.columns] (headerOptions cfg),
     eventOf (enc [inj cfg.columns] (headerOptions cfg))]
  else []

/-- The `transform(chunk, controller)` callback body: call
`stringify([chunk], { separator, headers: false, columns, crlf })` and enqueue
the result (or forward the thrown error). -/
def transformSteps {α ε : Type} (enc : Encoder α ε) (cfg : Config) (chunk : α) :
    List (Step α ε) :=
  [Step.callEnc [chunk] (itemOptions cfg),
   eventOf (enc [chunk] (itemOptions cfg))]

/-- The whole lifetime of one `CsvStringifyStream` instance constructed with
`options` and fed the items of `input` in order: `start` runs once before any
item, then `transform` runs once per item, and the step trace is delivered under
stream semantics (`consume`). -/
def CsvStringifyStream.run {α ε : Type} (enc : Encoder α ε)
    (inj : List String → α) (options : Option CsvStringifyStreamOptions)
    (input : List α) : RunResult α ε :=
  let cfg := mkConfig options
  consume (startSteps enc inj cfg ++ (input.map (transformSteps enc cfg)).flatten)

/-- The text returned by the encoder for one data item (meaningful when the call
succeeds). -/
def encodeItem {α ε : Type} (enc : Encoder α ε) (cfg : Config) (x : α) : String :=
  ((enc [x] (itemOptions cfg)).toOption).getD ""

/-- The text returned by the encoder for the header call (meaningful when the
call succeeds). -/
def encodeHeader {α ε : Type} (enc : Encoder α ε) (inj : List String → α)
    (cfg : Config) : String :=
  ((enc [inj cfg.columns] (headerOptions cfg)).toOption).getD ""

/-- The chunks delivered by the `start` callback alone: the header chunks of a
run (one chunk when `columns` is non-empty and the header call succeeds,
otherwise none). -/
def startChunks {α ε : Type} (enc : Encoder α ε) (inj : List String → α)
    (cfg : Config) : List String :=
  (consume (startSteps enc inj cfg)).chunks

/-! ### Structural lemmas about step traces -/

lemma consume_items_ok {α ε : Type} (enc : Encoder α ε) (cfg : Config)
    (input : List α)
    (h : ∀ x ∈ input, ∃ s, enc [x] (itemOptions cfg) = Except.ok s) :
    consume ((input.map (transformSteps enc cfg)).flatten) =
      ⟨input.map (fun x => ⟨[x], itemOptions cfg⟩),
       input.map (encodeItem enc cfg), none⟩ := by
  induction input with
  | nil => simp [consume]
  | cons x xs ih =>
      obtain ⟨s, hs⟩ := h x (by simp)
      have ihs := ih (fun y hy => h y (by simp [hy]))
      simp [transformSteps, consume, eventOf, hs, ihs, encodeItem, Except.toOption]

/-- Delivery of a concatenated step trace: if the first part errors, everything
after it is discarded; otherwise the deliveries concatenate. -/
lemma consume_append {α ε : Type} (l₁ l₂ : List (Step α ε)) :
    consume (l₁ ++ l₂) =
      match (consume l₁).error with
      | some _ => consume l₁
      | none => ⟨(consume l₁).calls ++ (consume l₂).calls,
                 (consume l₁).chunks ++ (consume l₂).chunks,
                 (consume l₂).error⟩ := by
  induction l₁ with
  | nil => simp [consume]
  | cons s rest ih =>
      cases s with
      | callEnc r o =>
          rcases h' : (consume rest).error with _ | v <;> simp [consume, ih, h']
      | enqueue s =>
          rcases h' : (consume rest).error with _ | v <;> simp [consume, ih, h']
      | error e => simp [consume]

lemma consume_items_fail {α ε : Type} (enc : Encoder α ε) (cfg : Config)
    (pre : List α) (x : α) (post : List α) (e : ε)
    (hpre : ∀ y ∈ pre, ∃ s, enc [y] (itemOptions cfg) = Except.ok s)
    (hx : enc [x] (itemOptions cfg) = Except.error e) :
    consume (((pre ++ x :: post).map (transformSteps enc cfg)).flatten) =
      ⟨pre.map (fun y => ⟨[y], itemOptions cfg⟩) ++ [⟨[x], itemOptions cfg⟩],
       pre.map (encodeItem enc cfg), some e⟩ := by
  have h1 : ((pre ++ x :: post).map (transformSteps enc cfg)).flatten
      = (pre.map (transformSteps enc cfg)).flatten
        ++ (transformSteps enc cfg x
            ++ (post.map (transformSteps enc cfg)).flatten) := by
    simp
  have h2 : consume (transformSteps enc cfg x
      ++ (post.map (transformSteps enc cfg)).flatten)
      = ⟨[⟨[x], itemOptions cfg⟩], [], some e⟩ := by
    simp [transformSteps, consume, eventOf, hx]
  rw [h1, consume_append, consume_items_ok enc cfg pre hpre, h2]
  simp

lemma items_ok_of_error_none {α ε : Type} (enc : Encoder α ε) (cfg : Config)
    (input : List α)
    (h : (consume ((input.map (transformSteps enc cfg)).flatten)).error = none) :
    ∀ x ∈ input, ∃ s, enc [x] (itemOptions cfg) = Except.ok s := by
  induction input with
  | nil => simp
  | cons y ys ih =>
      cases hr : enc [y] (itemOptions cfg) with
      | error e =>
          exfalso
          simp [transformSteps, consume, eventOf, hr] at h
      | ok s =>
          have htail : (consume ((ys.map (transformSteps enc cfg)).flatten)).error
              = none := by
            simpa [transformSteps, consume, eventOf, hr] using h
          intro x hx
          rcases List.mem_cons.mp hx with rfl | hx2
          · exact ⟨s, hr⟩
          · exact ih htail x hx2

/-- Error-free characterisation of a full step trace: if the header call (when
made) and every per-item call succeed, the delivered calls and chunks are the
header ones followed by one per item, in order, with no terminal error. -/
lemma consume_all_ok {α ε : Type} (enc : Encoder α ε) (inj : List String → α)
    (cfg : Config) (input : List α)
    (hhdr : cfg.columns.length > 0 →
      ∃ s, enc [inj cfg.columns] (headerOptions cfg) = Except.ok s)
    (hitems : ∀ x ∈ input, ∃ s, enc [x] (itemOptions cfg) = Except.ok s) :
    consume (startSteps enc inj cfg ++ (input.map (transformSteps enc cfg)).flatten) =
      ⟨(if cfg.columns.length > 0
          then [⟨[inj cfg.columns], headerOptions cfg⟩] else [])
         ++ input.map (fun x => ⟨[x], itemOptions cfg⟩),
       (if cfg.columns.length > 0 then [encodeHeader enc inj cfg] else [])
         ++ input.map (encodeItem enc cfg),
       none⟩ := by
  by_cases hc : cfg.columns.length > 0
  · obtain ⟨s, hs⟩ := hhdr hc
    simp [startSteps, hc, consume, eventOf, hs,
      consume_items_ok enc cfg input hitems, encodeHeader, Except.toOption]
  · simp [startSteps, hc, consume_items_ok enc cfg input hitems]

/-- If the header call fails, the run stops there: one encoder call, no chunk,
the thrown error as terminal error, regardless of the input items. -/
lemma consume_hdr_fail {α ε : Type} (enc : Encoder α ε) (inj : List String → α)
    (cfg : Config) (input : List α) (e : ε)
    (hc : cfg.columns.length > 0)
    (he : enc [inj cfg.columns] (headerOptions cfg) = Except.error e) :
    consume (startSteps enc inj cfg ++ (input.map (transformSteps enc cfg)).flatten) =
      ⟨[⟨[inj cfg.columns], headerOptions cfg⟩], [], some e⟩ := by
  simp [startSteps, hc, consume, eventOf, he]

/-- If the header call (when made) succeeds, every call for the items before `x`
succeeds, and the call for `x` fails, the run delivers exactly the header chunk
(when present) and one chunk per earlier item, then stops with the thrown error;
nothing for `x` or the items after it is delivered. -/
lemma consume_item_fail {α ε : Type} (enc : Encoder α ε) (inj : List String → α)
    (cfg : Config) (pre : List α) (x : α) (post : List α) (e : ε)
    (hhdr : cfg.columns.length > 0 →
      ∃ s, enc [inj cfg.columns] (headerOptions cfg) = Except.ok s)
    (hpre : ∀ y ∈ pre, ∃ s, enc [y] (itemOptions cfg) = Except.ok s)
    (hx : enc [x] (itemOptions cfg) = Except.error e) :
    consume (startSteps enc inj cfg
        ++ ((pre ++ x :: post).map (transformSteps enc cfg)).flatten) =
      ⟨(if cfg.columns.length > 0
          then [⟨[inj cfg.columns], headerOptions cfg⟩] else [])
         ++ (pre.map (fun y => ⟨[y], itemOptions cfg⟩) ++ [⟨[x], itemOptions cfg⟩]),
       (if cfg.columns.length > 0 then [encodeHeader enc inj cfg] else [])
         ++ pre.map (encodeItem enc cfg),
       some e⟩ := by
  rw [consume_append, consume_items_fail enc cfg pre x post e hpre hx]
  by_cases hc : cfg.columns.length > 0
  · obtain ⟨s, hs⟩ := hhdr hc
    simp [startSteps, hc, consume, eventOf, hs, encodeHeader, Except.toOption]
  · simp [startSteps, hc, consume]

/-- If the full run has no terminal error, the header call (when made)
succeeded. -/
lemma hdr_ok_of_error_none {α ε : Type} (enc : Encoder α ε) (inj : List String → α)
    (cfg : Config) (input : List α)
    (h : (consume (startSteps enc inj cfg
        ++ (input.map (transformSteps enc cfg)).flatten)).error = none)
    (hc : cfg.columns.length > 0) :
    ∃ s, enc [inj cfg.columns] (headerOptions cfg) = Except.ok s := by
  cases hr : enc [inj cfg.columns] (headerOptions cfg) with
  | error e =>
      exfalso
      simp [startSteps, hc, consume, eventOf, hr] at h
  | ok s => exact ⟨s, rfl⟩

/-- If the full run has no terminal error, every per-item call succeeded. -/
lemma items_ok_of_run_error_none {α ε : Type} (enc : Encoder α ε)
    (inj : List String → α) (cfg : Config) (input : List α)
    (h : (consume (startSteps enc inj cfg
        ++ (input.map (transformSteps enc cfg)).flatten)).error = none) :
    ∀ x ∈ input, ∃ s, enc [x] (itemOptions cfg) = Except.ok s := by
  apply items_ok_of_error_none
  by_cases hc : cfg.columns.length > 0
  · obtain ⟨s, hs⟩ := hdr_ok_of_error_none enc inj cfg input h hc
    simpa [startSteps, hc, consume, eventOf, hs] using h
  · simpa [startSteps, hc] using h

/-- The full error-free run, phrased for `CsvStringifyStream.run` with the
hypothesis the claims use: the run has no terminal error. -/
lemma run_of_error_none {α ε : Type} (enc : Encoder α ε) (inj : List String → α)
    (options : Option CsvStringifyStreamOptions) (input : List α)
    (h : (CsvStringifyStream.run enc inj options input).error = none) :
    CsvStringifyStream.run enc inj options input =
      ⟨(if (mkConfig options).columns.length > 0
          then [⟨[inj (mkConfig options).columns], headerOptions (mkConfig options)⟩]
          else [])
         ++ input.map (fun x => ⟨[x], itemOptions (mkConfig options)⟩),
       (if (mkConfig options).columns.length > 0
          then [encodeHeader enc inj (mkConfig options)] else [])
         ++ input.map (encodeItem enc (mkConfig options)),
       none⟩ := by
  have h' : (consume (startSteps enc inj (mkConfig options)
      ++ (input.map (transformSteps enc (mkConfig options))).flatten)).error = none := h
  exact consume_all_ok enc inj (mkConfig options) input
    (hdr_ok_of_error_none enc inj (mkConfig options) input h')
    (items_ok_of_run_error_none enc inj (mkConfig options) input h')

/-- If the `start` callback errored, it delivered no chunk. -/
lemma start_chunks_empty_of_error {α ε : Type} (enc : Encoder α ε)
    (inj : List String → α) (cfg : Config) (e : ε)
    (h : (consume (startSteps enc inj cfg)).error = some e) :
    (consume (startSteps enc inj cfg)).chunks = [] := by
  by_cases hc : cfg.columns.length > 0
  · cases henc : enc [inj cfg.columns] (headerOptions cfg) <;>
      simp [startSteps, hc, consume, eventOf, henc] at h ⊢
  · simp [startSteps, hc, consume] at h

/-- Every delivered encoder call corresponds to a `callEnc` step of the trace. -/
lemma mem_step_of_mem_calls {α ε : Type} (l : List (Step α ε)) :
    ∀ c ∈ (consume l).calls, Step.callEnc c.rows c.opts ∈ l := by
  induction l with
  | nil => simp [consume]
  | cons s rest ih =>
      cases s with
      | callEnc r o =>
          intro c hc
          rcases List.mem_cons.mp hc with rfl | hc2
          · exact List.mem_cons_self _ _
          · exact List.mem_cons_of_mem _ (ih c hc2)
      | enqueue s =>
          intro c hc
          exact List.mem_cons_of_mem _ (ih c hc)
      | error e => simp [consume]

/-- A `callEnc` step of the `start` trace is the header call. -/
lemma call_of_mem_startSteps {α ε : Type} (enc : Encoder α ε)
    (inj : List String → α) (cfg : Config) (r : List α) (o : StringifyOptions)
    (h : Step.callEnc r o ∈ startSteps enc inj cfg) :
    r = [inj cfg.columns] ∧ o = headerOptions cfg ∧ cfg.columns.length > 0 := by
  by_cases hc : cfg.columns.length > 0
  · simp only [startSteps, hc, if_true] at h
    rcases List.mem_cons.mp h with he | h2
    · exact ⟨by injection he, by injection he, hc⟩
    · exfalso
      rcases List.mem_cons.mp h2 with he | h3
      · cases henc : enc [inj cfg.columns] (headerOptions cfg) <;>
          simp [eventOf, henc] at he
      · simp at h3
  · simp [startSteps, hc] at h

/-- A `callEnc` step of the per-item traces is an item call for one of the
input items. -/
lemma call_of_mem_itemSteps {α ε : Type} (enc : Encoder α ε) (cfg : Config)
    (input : List α) (r : List α) (o : StringifyOptions)
    (h : Step.callEnc r o ∈ (input.map (transformSteps enc cfg)).flatten) :
    o = itemOptions cfg ∧ ∃ x ∈ input, r = [x] := by
  rcases List.mem_flatten.mp h with ⟨l, hl, hstep⟩
  rcases List.mem_map.mp hl with ⟨x, hx, rfl⟩
  rcases List.mem_cons.mp hstep with he | h2
  · exact ⟨by injection he, x, hx, by injection he⟩
  · exfalso
    rcases List.mem_cons.mp h2 with he | h3
    · cases henc : enc [x] (itemOptions cfg) <;> simp [eventOf, henc] at he
    · simp at h3

/-! ### Concrete instances used to exercise the model -/

/-- A concrete record encoder that always succeeds: it joins the fields of the
first row of the batch with the separator (defaulting to a comma). -/
def encW : Encoder (List String) Nat :=
  fun rows o =>
    Except.ok (String.intercalate (o.separator.getD ",") (rows.headD []))

/-- A concrete record encoder that always throws. -/
def encFail : Encoder (List String) Nat :=
  fun _ _ => Except.error 7

/-- A concrete record encoder that throws exactly on the row `["BAD"]`. -/
def encPart : Encoder (List String) Nat :=
  fun rows o =>
    if rows.headD [] = ["BAD"] then Except.error 3
    else Except.ok (String.intercalate (o.separator.getD ",") (rows.headD []))

lemma mkConfig_some (sep : Option String) (cols : List String) (crlf : Bool) :
    mkConfig (some ⟨sep, some cols, some crlf⟩) = ⟨sep, cols, crlf⟩ := rfl

lemma headerOptions_mk (sep : Option String) (cols : List String) (crlf : Bool) :
    headerOptions ⟨sep, cols, crlf⟩ = ⟨sep, false, none, crlf⟩ := rfl

lemma itemOptions_mk (sep : Option String) (cols : List String) (crlf : Bool) :
    itemOptions ⟨sep, cols, crlf⟩ = ⟨sep, false, some cols, crlf⟩ := rfl

/-! ### Claims -/

/-- C1 counterexample: the claim asserts a header chunk is produced if and only
if `columns` is non-empty, for every configuration and input sequence.  With the
encoder collaborator throwing on the header call and `columns = ["a"]`
(non-empty), the run delivers no chunk at all — in particular no header
chunk — so the "if" direction of the claimed equivalence fails. -/
theorem claim_C1_counterexample :
    (["a"] : List String) ≠ [] ∧
    (CsvStringifyStream.run encFail id (some ⟨none, some ["a"], some true⟩)
        ([] : List (List String))).chunks = [] := by
  constructor
  · simp
  · rfl

/-- C1 (amended): over the whole lifetime of a run, the `start` callback
delivers at most one chunk (the header); when the header encoder call succeeds,
a header chunk is delivered iff `columns` is non-empty; the header chunks are a
prefix of the whole delivered chunk sequence (the header, when present, comes
first, before any data chunk); and every chunk after them is delivered by
per-item processing (the header state never transitions back), while if the
header call errored nothing at all is delivered. -/
theorem claim_C1 {α ε : Type} (enc : Encoder α ε) (inj : List String → α)
    (sep : Option String) (cols : List String) (crlf : Bool) (input : List α) :
    (startChunks enc inj (mkConfig (some ⟨sep, some cols, some crlf⟩))).length ≤ 1
    ∧ ((∃ s, enc [inj cols] ⟨sep, false, none, crlf⟩ = Except.ok s) →
        (startChunks enc inj (mkConfig (some ⟨sep, some cols, some crlf⟩)) ≠ []
          ↔ cols ≠ []))
    ∧ startChunks enc inj (mkConfig (some ⟨sep, some cols, some crlf⟩))
        <+: (CsvStringifyStream.run enc inj (some ⟨sep, some cols, some crlf⟩)
              input).chunks
    ∧ ((consume (startSteps enc inj
          (mkConfig (some ⟨sep, some cols, some crlf⟩)))).error = none →
        (CsvStringifyStream.run enc inj (some ⟨sep, some cols, some crlf⟩)
            input).chunks
          = startChunks enc inj (mkConfig (some ⟨sep, some cols, some crlf⟩))
            ++ (consume ((input.map (transformSteps enc
                (mkConfig (some ⟨sep, some cols, some crlf⟩)))).flatten)).chunks)
    ∧ ((consume (startSteps enc inj
          (mkConfig (some ⟨sep, some cols, some crlf⟩)))).error ≠ none →
        (CsvStringifyStream.run enc inj (some ⟨sep, some cols, some crlf⟩)
            input).chunks = []) := by
  refine ⟨?_, ?_, ?_, ?_, ?_⟩
  · by_cases hc : cols.length > 0
    · cases henc : enc [inj cols] (⟨sep, false, none, crlf⟩ : StringifyOptions) <;>
        simp [startChunks, startSteps, mkConfig_some, headerOptions_mk, hc,
          consume, eventOf, henc]
    · simp [startChunks, startSteps, mkConfig_some, hc, consume]
  · rintro ⟨s, hs⟩
    cases cols with
    | nil => simp [startChunks, startSteps, mkConfig_some, consume]
    | cons c cs =>
        simp [startChunks, startSteps, mkConfig_some, headerOptions_mk,
          consume, eventOf, hs]
  · rw [show (CsvStringifyStream.run enc inj (some ⟨sep, some cols, some crlf⟩)
        input)
      = consume (startSteps enc inj (mkConfig (some ⟨sep, some cols, some crlf⟩))
          ++ ((input.map (transformSteps enc
              (mkConfig (some ⟨sep, some cols, some crlf⟩)))).flatten)) from rfl]
    rw [consume_append]
    rcases h' : (consume (startSteps enc inj
        (mkConfig (some ⟨sep, some cols, some crlf⟩)))).error with _ | v
    · simp [startChunks]
    · simp [startChunks]
  · intro h'
    rw [show (CsvStringifyStream.run enc inj (some ⟨sep, some cols, some crlf⟩)
        input)
      = consume (startSteps enc inj (mkConfig (some ⟨sep, some cols, some crlf⟩))
          ++ ((input.map (transformSteps enc
              (mkConfig (some ⟨sep, some cols, some crlf⟩)))).flatten)) from rfl]
    rw [consume_append, h']
    simp [startChunks]
  · intro h'
    rcases h'' : (consume (startSteps enc inj
        (mkConfig (some ⟨sep, some cols, some crlf⟩)))).error with _ | e
    · exact absurd h'' h'
    · rw [show (CsvStringifyStream.run enc inj (some ⟨sep, some cols, some crlf⟩)
          input)
        = consume (startSteps enc inj (mkConfig (some ⟨sep, some cols, some crlf⟩))
            ++ ((input.map (transformSteps enc
                (mkConfig (some ⟨sep, some cols, some crlf⟩)))).flatten)) from rfl]
      rw [consume_append, h'']
      exact start_chunks_empty_of_error enc inj _ e h''

/-- C1 witness: the amended claim applied to concrete runs, discharging each
hypothesis — a successful header call with `columns = ["a"]` yields the
equivalence instance, an error-free start yields the chunk decomposition, and a
throwing header call yields the empty delivery. -/
theorem claim_C1_witness :
    (startChunks encW id (mkConfig (some ⟨none, some ["a"], some true⟩)) ≠ []
      ↔ (["a"] : List String) ≠ [])
    ∧ (CsvStringifyStream.run encW id (some ⟨none, some ["a"], some true⟩)
          [["x"]]).chunks
        = startChunks encW id (mkConfig (some ⟨none, some ["a"], some true⟩))
          ++ (consume (([["x"]].map (transformSteps encW
              (mkConfig (some ⟨none, some ["a"], some true⟩)))).flatten)).chunks
    ∧ (CsvStringifyStream.run encFail id (some ⟨none, some ["b"], some true⟩)
          [["x"]]).chunks = [] :=
  ⟨(claim_C1 encW id none ["a"] true [["x"]]).2.1 ⟨_, rfl⟩,
   (claim_C1 encW id none ["a"] true [["x"]]).2.2.2.1 rfl,
   (claim_C1 encFail id none ["b"] true [["x"]]).2.2.2.2 (by decide)⟩

/-- C2: on a run with no terminal error (the encoder never failed), the number
of delivered chunks is `N + 1` when `columns` is non-empty (header plus one per
item, the header present even for `N = 0`) and `N` when `columns` is empty. -/
theorem claim_C2 {α ε : Type} (enc : Encoder α ε) (inj : List String → α)
    (sep : Option String) (cols : List String) (crlf : Bool) (input : List α)
    (h : (CsvStringifyStream.run enc inj (some ⟨sep, some cols, some crlf⟩)
        input).error = none) :
    (CsvStringifyStream.run enc inj (some ⟨sep, some cols, some crlf⟩)
        input).chunks.length
      = if cols.length > 0 then input.length + 1 else input.length := by
  rw [run_of_error_none enc inj _ input h]
  by_cases hc : cols.length > 0 <;>
    simp [mkConfig, hc, Nat.add_comm]

/-- C2 witness: two items with a one-column header give three chunks; two items
with empty `columns` give two. -/
theorem claim_C2_witness :
    (CsvStringifyStream.run encW id (some ⟨none, some ["a"], some true⟩)
        [["x"], ["y"]]).error = none
    ∧ (CsvStringifyStream.run encW id (some ⟨none, some ["a"], some true⟩)
        [["x"], ["y"]]).chunks.length = 3
    ∧ (CsvStringifyStream.run encW id (some ⟨none, some [], some true⟩)
        [["x"], ["y"]]).chunks.length = 2 :=
  ⟨rfl,
   claim_C2 encW id none ["a"] true [["x"], ["y"]] rfl,
   claim_C2 encW id none [] true [["x"], ["y"]] rfl⟩

/-- C3: when `columns` is non-empty, the `start` callback performs exactly one
encoder call, whose batch is the single row `columns` itself and whose options
are `{ separator, headers: false, crlf }` with no `columns` option; over the
whole run this call comes first; and when it returns text, that text is the
first delivered chunk. -/
theorem claim_C3 {α ε : Type} (enc : Encoder α ε) (inj : List String → α)
    (sep : Option String) (cols : List String) (crlf : Bool) (input : List α)
    (hc : cols.length > 0) :
    (consume (startSteps enc inj
        (mkConfig (some ⟨sep, some cols, some crlf⟩)))).calls
      = [⟨[inj cols], ⟨sep, false, none, crlf⟩⟩]
    ∧ (CsvStringifyStream.run enc inj (some ⟨sep, some cols, some crlf⟩)
        input).calls.head?
      = some ⟨[inj cols], ⟨sep, false, none, crlf⟩⟩
    ∧ ∀ s, enc [inj cols] ⟨sep, false, none, crlf⟩ = Except.ok s →
        (CsvStringifyStream.run enc inj (some ⟨sep, some cols, some crlf⟩)
            input).chunks.head? = some s := by
  have hcalls : (consume (startSteps enc inj
      (mkConfig (some ⟨sep, some cols, some crlf⟩)))).calls
      = [⟨[inj cols], ⟨sep, false, none, crlf⟩⟩] := by
    cases henc : enc [inj cols] (⟨sep, false, none, crlf⟩ : StringifyOptions) <;>
      simp [startSteps, mkConfig_some, headerOptions_mk, hc, consume, eventOf, henc]
  refine ⟨hcalls, ?_, ?_⟩
  · rw [show (CsvStringifyStream.run enc inj (some ⟨sep, some cols, some crlf⟩)
        input)
      = consume (startSteps enc inj (mkConfig (some ⟨sep, some cols, some crlf⟩))
          ++ ((input.map (transformSteps enc
              (mkConfig (some ⟨sep, some cols, some crlf⟩)))).flatten)) from rfl]
    rw [consume_append]
    rcases h' : (consume (startSteps enc inj
        (mkConfig (some ⟨sep, some cols, some crlf⟩)))).error with _ | v <;>
      simp [hcalls]
  · intro s hs
    rw [show (CsvStringifyStream.run enc inj (some ⟨sep, some cols, some crlf⟩)
        input)
      = consume (startSteps enc inj (mkConfig (some ⟨sep, some cols, some crlf⟩))
          ++ ((input.map (transformSteps enc
              (mkConfig (some ⟨sep, some cols, some crlf⟩)))).flatten)) from rfl]
    rw [consume_append]
    simp [startSteps, mkConfig_some, headerOptions_mk, hc, consume, eventOf, hs]

/-- C3 witness: with `columns = ["a", "b"]` and default separator, the header
call is the single start call, it is the first call of the run, and its text
`"a,b"` is the first delivered chunk. -/
theorem claim_C3_witness :
    (consume (startSteps encW id
        (mkConfig (some ⟨none, some ["a", "b"], some true⟩)))).calls
      = [⟨[["a", "b"]], ⟨none, false, none, true⟩⟩]
    ∧ (CsvStringifyStream.run encW id (some ⟨none, some ["a", "b"], some true⟩)
        [["x"]]).calls.head?
      = some ⟨[["a", "b"]], ⟨none, false, none, true⟩⟩
    ∧ (CsvStringifyStream.run encW id (some ⟨none, some ["a", "b"], some true⟩)
        [["x"]]).chunks.head? = some "a,b" :=
  ⟨(claim_C3 encW id none ["a", "b"] true [["x"]] (by decide)).1,
   (claim_C3 encW id none ["a", "b"] true [["x"]] (by decide)).2.1,
   (claim_C3 encW id none ["a", "b"] true [["x"]] (by decide)).2.2 "a,b" rfl⟩

/-- C4: on an error-free run, after the header chunk (when `columns` is
non-empty) there is exactly one encoder call per input item, whose batch is the
single item and whose options are `{ separator, headers: false, columns, crlf }`
with `columns` present even when empty, and exactly one chunk per item, namely
the text the encoder returned for it. -/
theorem claim_C4 {α ε : Type} (enc : Encoder α ε) (inj : List String → α)
    (sep : Option String) (cols : List String) (crlf : Bool) (input : List α)
    (h : (CsvStringifyStream.run enc inj (some ⟨sep, some cols, some crlf⟩)
        input).error = none) :
    (CsvStringifyStream.run enc inj (some ⟨sep, some cols, some crlf⟩)
        input).calls.drop (if cols.length > 0 then 1 else 0)
      = input.map (fun x => ⟨[x], ⟨sep, false, some cols, crlf⟩⟩)
    ∧ (CsvStringifyStream.run enc inj (some ⟨sep, some cols, some crlf⟩)
        input).chunks.drop (if cols.length > 0 then 1 else 0)
      = input.map (encodeItem enc ⟨sep, cols, crlf⟩)
    ∧ ∀ x ∈ input, ∃ s, enc [x] ⟨sep, false, some cols, crlf⟩ = Except.ok s
        ∧ encodeItem enc ⟨sep, cols, crlf⟩ x = s := by
  have h3 := items_ok_of_run_error_none enc inj
    (mkConfig (some ⟨sep, some cols, some crlf⟩)) input h
  rw [run_of_error_none enc inj _ input h]
  refine ⟨?_, ?_, ?_⟩
  · by_cases hc : cols.length > 0 <;>
      simp [mkConfig_some, headerOptions_mk, itemOptions_mk, hc]
  · by_cases hc : cols.length > 0 <;>
      simp [mkConfig_some, hc]
  · intro x hx
    obtain ⟨s, hs⟩ := h3 x hx
    have hs' : enc [x] (⟨sep, false, some cols, crlf⟩ : StringifyOptions)
        = Except.ok s := hs
    exact ⟨s, hs', by simp [encodeItem, itemOptions_mk, hs', Except.toOption]⟩

/-- C4 witness: the theorem applied to a single-item run with empty `columns`
and an error-free encoder (`columns` is passed, empty, to the item call). -/
theorem claim_C4_witness :
    (CsvStringifyStream.run encW id (some ⟨none, some [], some true⟩)
        [["x"]]).calls.drop (if ([] : List String).length > 0 then 1 else 0)
      = [["x"]].map (fun x =>
          (⟨[x], ⟨none, false, some [], true⟩⟩ : EncCall (List String)))
    ∧ (CsvStringifyStream.run encW id (some ⟨none, some [], some true⟩)
        [["x"]]).chunks.drop (if ([] : List String).length > 0 then 1 else 0)
      = [["x"]].map (encodeItem encW ⟨none, [], true⟩)
    ∧ ∀ x ∈ [["x"]], ∃ s,
        encW [x] ⟨none, false, some [], true⟩ = Except.ok s
        ∧ encodeItem encW ⟨none, [], true⟩ x = s :=
  claim_C4 encW id none [] true [["x"]] rfl

/-- C5: if the encoder throws at the header call, the run terminates with that
very error after a single encoder call and no chunk; if the header call (when
made) and the calls for the items before `x` succeed and the call for `x`
throws, the run terminates with that very error, the delivered chunks are
exactly the previously emitted ones (header when present plus one per earlier
item — none retracted, none added for `x` or later items), so with `x` the
`k`-th item, `k − 1` chunks were delivered when `columns` is empty and `k` when
a header was emitted. -/
theorem claim_C5 {α ε : Type} (enc : Encoder α ε) (inj : List String → α)
    (sep : Option String) (cols : List String) (crlf : Bool)
    (input pre post : List α) (x : α) (e : ε) :
    ((cols.length > 0
        ∧ enc [inj cols] ⟨sep, false, none, crlf⟩ = Except.error e) →
      CsvStringifyStream.run enc inj (some ⟨sep, some cols, some crlf⟩) input
        = ⟨[⟨[inj cols], ⟨sep, false, none, crlf⟩⟩], [], some e⟩)
    ∧ (((cols.length > 0 →
          ∃ s, enc [inj cols] ⟨sep, false, none, crlf⟩ = Except.ok s)
        ∧ (∀ y ∈ pre, ∃ s, enc [y] ⟨sep, false, some cols, crlf⟩ = Except.ok s)
        ∧ enc [x] ⟨sep, false, some cols, crlf⟩ = Except.error e) →
      (CsvStringifyStream.run enc inj (some ⟨sep, some cols, some crlf⟩)
          (pre ++ x :: post)).error = some e
      ∧ (CsvStringifyStream.run enc inj (some ⟨sep, some cols, some crlf⟩)
          (pre ++ x :: post)).chunks
        = (if cols.length > 0
            then [encodeHeader enc inj ⟨sep, cols, crlf⟩] else [])
          ++ pre.map (encodeItem enc ⟨sep, cols, crlf⟩)
      ∧ (CsvStringifyStream.run enc inj (some ⟨sep, some cols, some crlf⟩)
          (pre ++ x :: post)).chunks.length
        = pre.length + (if cols.length > 0 then 1 else 0)) := by
  constructor
  · rintro ⟨hc, he⟩
    exact consume_hdr_fail enc inj (mkConfig (some ⟨sep, some cols, some crlf⟩))
      input e hc he
  · rintro ⟨hhdr, hpre, hx⟩
    have hfail := consume_item_fail enc inj
      (mkConfig (some ⟨sep, some cols, some crlf⟩)) pre x post e hhdr hpre hx
    rw [show (CsvStringifyStream.run enc inj (some ⟨sep, some cols, some crlf⟩)
        (pre ++ x :: post))
      = consume (startSteps enc inj (mkConfig (some ⟨sep, some cols, some crlf⟩))
          ++ (((pre ++ x :: post).map (transformSteps enc
              (mkConfig (some ⟨sep, some cols, some crlf⟩)))).flatten)) from rfl]
    rw [hfail]
    refine ⟨rfl, rfl, ?_⟩
    by_cases hc : cols.length > 0 <;>
      simp [mkConfig_some, hc, Nat.add_comm]

/-- C5 witness: the theorem applied to a run whose header call throws (error
`7` with one call and no chunk) and to a run with empty `columns` whose second
item's call throws (error `3` after exactly one delivered chunk). -/
theorem claim_C5_witness :
    CsvStringifyStream.run encFail id (some ⟨none, some ["a"], some true⟩)
        [["x"]]
      = ⟨[⟨[["a"]], ⟨none, false, none, true⟩⟩], [], some 7⟩
    ∧ ((CsvStringifyStream.run encPart id (some ⟨none, some [], some true⟩)
          ([["x"]] ++ ["BAD"] :: [["z"]])).error = some 3
      ∧ (CsvStringifyStream.run encPart id (some ⟨none, some [], some true⟩)
          ([["x"]] ++ ["BAD"] :: [["z"]])).chunks
        = (if ([] : List String).length > 0
            then [encodeHeader encPart id ⟨none, [], true⟩] else [])
          ++ [["x"]].map (encodeItem encPart ⟨none, [], true⟩)
      ∧ (CsvStringifyStream.run encPart id (some ⟨none, some [], some true⟩)
          ([["x"]] ++ ["BAD"] :: [["z"]])).chunks.length
        = [["x"]].length + (if ([] : List String).length > 0 then 1 else 0)) :=
  ⟨(claim_C5 encFail id none ["a"] true [["x"]] [] [] ["y"] 7).1 ⟨by decide, rfl⟩,
   (claim_C5 encPart id none [] true [] [["x"]] [["z"]] ["BAD"] 3).2
     ⟨fun hcon => absurd hcon (by decide),
      by
        intro y hy
        rw [List.mem_singleton] at hy
        subst hy
        exact ⟨_, rfl⟩,
      rfl⟩⟩

/-- C6: on an error-free run, the `k`-th data chunk (the chunk at index `k`
after the header chunk, when one is present) is the encoding of the `k`-th
input item, and the total chunk count is the header count plus one per item
(order is preserved one-to-one). -/
theorem claim_C6 {α ε : Type} (enc : Encoder α ε) (inj : List String → α)
    (sep : Option String) (cols : List String) (crlf : Bool) (input : List α)
    (k : Nat) (hk : k < input.length)
    (h : (CsvStringifyStream.run enc inj (some ⟨sep, some cols, some crlf⟩)
        input).error = none) :
    ((CsvStringifyStream.run enc inj (some ⟨sep, some cols, some crlf⟩)
        input).chunks.drop (if cols.length > 0 then 1 else 0))[k]?
      = some (encodeItem enc ⟨sep, cols, crlf⟩ input[k])
    ∧ (CsvStringifyStream.run enc inj (some ⟨sep, some cols, some crlf⟩)
        input).chunks.length
      = (if cols.length > 0 then 1 else 0) + input.length := by
  rw [run_of_error_none enc inj _ input h]
  constructor
  · by_cases hc : cols.length > 0 <;>
      simp [mkConfig_some, hc, List.getElem?_map, List.getElem?_eq_getElem, hk]
  · by_cases hc : cols.length > 0 <;> simp [mkConfig_some, hc, Nat.add_comm]

/-- C6 witness: with a one-column header and two items, the data chunk at index
1 is the encoding of the second item, and three chunks are delivered. -/
theorem claim_C6_witness :
    ((CsvStringifyStream.run encW id (some ⟨none, some ["a"], some true⟩)
        [["x"], ["y"]]).chunks.drop
          (if (["a"] : List String).length > 0 then 1 else 0))[1]?
      = some (encodeItem encW ⟨none, ["a"], true⟩ [["x"], ["y"]][1])
    ∧ (CsvStringifyStream.run encW id (some ⟨none, some ["a"], some true⟩)
        [["x"], ["y"]]).chunks.length
      = (if (["a"] : List String).length > 0 then 1 else 0) + [["x"], ["y"]].length :=
  claim_C6 encW id none ["a"] true [["x"], ["y"]] 1 (by decide) rfl

/-- C7: the transform is deterministic — the run outcome is a function of the
configuration, the input sequence and the (extensional) behaviour of the
encoder collaborator, so two instances with identical configuration fed
identical inputs deliver identical chunk sequences. -/
theorem claim_C7 {α ε : Type} (enc₁ enc₂ : Encoder α ε) (inj : List String → α)
    (options : Option CsvStringifyStreamOptions) (input : List α)
    (h : ∀ rows opts, enc₁ rows opts = enc₂ rows opts) :
    CsvStringifyStream.run enc₁ inj options input
      = CsvStringifyStream.run enc₂ inj options input := by
  have he : enc₁ = enc₂ := funext fun r => funext fun o => h r o
  rw [he]

/-- C7 witness: two identically configured runs over the same input agree. -/
theorem claim_C7_witness :
    CsvStringifyStream.run encW id (some ⟨none, some ["a"], some true⟩) [["x"]]
      = CsvStringifyStream.run encW id (some ⟨none, some ["a"], some true⟩)
          [["x"]] :=
  claim_C7 encW encW id (some ⟨none, some ["a"], some true⟩) [["x"]]
    (fun _ _ => rfl)

/-- C8: every encoder call performed during the lifetime of a run carries the
construction-time configuration unchanged: its `separator` and `crlf` are the
captured ones, `headers` is always `false`, and its `columns` is either absent
(the header call) or exactly the captured column list (the per-item calls). -/
theorem claim_C8 {α ε : Type} (enc : Encoder α ε) (inj : List String → α)
    (sep : Option String) (cols : List String) (crlf : Bool) (input : List α) :
    ∀ c ∈ (CsvStringifyStream.run enc inj (some ⟨sep, some cols, some crlf⟩)
        input).calls,
      c.opts.separator = sep ∧ c.opts.headers = false ∧ c.opts.crlf = crlf
      ∧ (c.opts.columns = none ∨ c.opts.columns = some cols) := by
  intro c hc
  have hc' : c ∈ (consume (startSteps enc inj
      (mkConfig (some ⟨sep, some cols, some crlf⟩))
      ++ ((input.map (transformSteps enc
          (mkConfig (some ⟨sep, some cols, some crlf⟩)))).flatten))).calls := hc
  have hstep := mem_step_of_mem_calls _ c hc'
  rcases List.mem_append.mp hstep with hstart | hitems
  · obtain ⟨_, ho, _⟩ := call_of_mem_startSteps enc inj _ c.rows c.opts hstart
    rw [ho, mkConfig_some, headerOptions_mk]
    simp
  · obtain ⟨ho, _⟩ := call_of_mem_itemSteps enc _ input c.rows c.opts hitems
    rw [ho, mkConfig_some, itemOptions_mk]
    simp

/-- C8 witness: the header call of a concrete run carries the captured
configuration. -/
theorem claim_C8_witness :
    (⟨[["a"]], ⟨none, false, none, true⟩⟩ : EncCall (List String)).opts.separator
        = none
    ∧ (⟨[["a"]], ⟨none, false, none, true⟩⟩
        : EncCall (List String)).opts.headers = false
    ∧ (⟨[["a"]], ⟨none, false, none, true⟩⟩
        : EncCall (List String)).opts.crlf = true
    ∧ ((⟨[["a"]], ⟨none, false, none, true⟩⟩
          : EncCall (List String)).opts.columns = none
        ∨ (⟨[["a"]], ⟨none, false, none, true⟩⟩
            : EncCall (List String)).opts.columns = some ["a"]) :=
  claim_C8 encW id none ["a"] true [["x"]]
    ⟨[["a"]], ⟨none, false, none, true⟩⟩ (by decide)

/-- C9: constructing with no options object behaves exactly like
`columns = []`, `crlf = true`, `separator` absent; omitting only `columns`
behaves exactly like passing the empty list; with no options the `start`
callback delivers nothing (no header chunk) and every encoder call of the run
receives `separator` absent, `headers: false`, `columns: []` and `crlf: true`;
omitting `crlf` captures `true` and omitting `separator` captures `undefined`. -/
theorem claim_C9 {α ε : Type} (enc : Encoder α ε) (inj : List String → α)
    (input : List α) (sep : Option String) (colsO : Option (List String))
    (crlfO : Option Bool) :
    CsvStringifyStream.run enc inj none input
      = CsvStringifyStream.run enc inj (some ⟨none, some [], some true⟩) input
    ∧ CsvStringifyStream.run enc inj (some ⟨sep, none, crlfO⟩) input
      = CsvStringifyStream.run enc inj (some ⟨sep, some [], crlfO⟩) input
    ∧ startSteps enc inj (mkConfig none) = []
    ∧ (∀ c ∈ (CsvStringifyStream.run enc inj none input).calls,
        c.opts = ⟨none, false, some [], true⟩)
    ∧ (mkConfig (some ⟨sep, colsO, none⟩)).crlf = true
    ∧ (mkConfig (some ⟨none, colsO, crlfO⟩)).separator = none := by
  refine ⟨rfl, rfl, rfl, ?_, rfl, rfl⟩
  intro c hc
  have hc' : c ∈ (consume (startSteps enc inj (mkConfig none)
      ++ ((input.map (transformSteps enc (mkConfig none))).flatten))).calls := hc
  have hstep := mem_step_of_mem_calls _ c hc'
  rcases List.mem_append.mp hstep with hstart | hitems
  · obtain ⟨_, _, hpos⟩ := call_of_mem_startSteps enc inj _ c.rows c.opts hstart
    exact absurd hpos (by simp [mkConfig])
  · obtain ⟨ho, _⟩ := call_of_mem_itemSteps enc _ input c.rows c.opts hitems
    rw [ho]
    rfl

/-- C9 witness: a run with no options object equals the explicit-defaults run,
and its item call carries `columns: []`, `crlf: true`, `separator` absent. -/
theorem claim_C9_witness :
    CsvStringifyStream.run encW id none [["x"]]
      = CsvStringifyStream.run encW id (some ⟨none, some [], some true⟩) [["x"]]
    ∧ (⟨[["x"]], ⟨none, false, some [], true⟩⟩ : EncCall (List String)).opts
        = ⟨none, false, some [], true⟩ :=
  ⟨(claim_C9 encW id [["x"]] none none none).1,
   (claim_C9 encW id [["x"]] none none none).2.2.2.1
     ⟨[["x"]], ⟨none, false, some [], true⟩⟩ (by decide)⟩

/-- C10: the data chunk for an item is a function of that item and the
configuration only — two error-free runs of identically configured instances
yield the same chunk at the positions of equal items, regardless of the other
items or of how many items precede them (no per-item state is kept). -/
theorem claim_C10 {α ε : Type} (enc : Encoder α ε) (inj : List String → α)
    (sep : Option String) (cols : List String) (crlf : Bool)
    (l₁ l₂ : List α) (k₁ k₂ : Nat)
    (hk₁ : k₁ < l₁.length) (hk₂ : k₂ < l₂.length)
    (h₁ : (CsvStringifyStream.run enc inj (some ⟨sep, some cols, some crlf⟩)
        l₁).error = none)
    (h₂ : (CsvStringifyStream.run enc inj (some ⟨sep, some cols, some crlf⟩)
        l₂).error = none)
    (heq : l₁[k₁] = l₂[k₂]) :
    ((CsvStringifyStream.run enc inj (some ⟨sep, some cols, some crlf⟩)
        l₁).chunks.drop (if cols.length > 0 then 1 else 0))[k₁]?
      = ((CsvStringifyStream.run enc inj (some ⟨sep, some cols, some crlf⟩)
        l₂).chunks.drop (if cols.length > 0 then 1 else 0))[k₂]? := by
  rw [run_of_error_none enc inj _ l₁ h₁, run_of_error_none enc inj _ l₂ h₂]
  by_cases hc : cols.length > 0 <;>
    simp [mkConfig_some, hc, List.getElem?_map, List.getElem?_eq_getElem,
      hk₁, hk₂, heq]

/-- C10 witness: the chunk for the item `["x"]` is the same whether it is the
first item of a one-item run or the second item of a two-item run. -/
theorem claim_C10_witness :
    ((CsvStringifyStream.run encW id (some ⟨none, some [], some true⟩)
        [["x"]]).chunks.drop (if ([] : List String).length > 0 then 1 else 0))[0]?
      = ((CsvStringifyStream.run encW id (some ⟨none, some [], some true⟩)
        [["pad"], ["x"]]).chunks.drop
          (if ([] : List String).length > 0 then 1 else 0))[1]? :=
  claim_C10 encW id none [] true [["x"]] [["pad"], ["x"]] 0 1
    (by decide) (by decide) rfl rfl (by decide)

end CsvStream
